import Mathlib

/-!
Verification of the reference-extraction and cross-linking pipeline of the
scofield-bible-project repository, embedded shallowly from
src/scofield_parser.py (class EnhancedScofieldParser and its constant
tables).

Conventions of the embedding:
* Python strings are Lean Strings; character-level scanning works on
  List Char.  All character classes are modelled over ASCII, which covers
  every character the pipeline's fixed tables and patterns mention.
* Python floats 0.8, 1.0 and the expression (n / 100) are modelled as exact
  rationals; the code only ever compares and stores these constants.
* Python dicts keyed by generated ids are modelled as association lists in
  insertion order, matching dict iteration order.
* Python regular expressions are modelled by explicit matchers.  The two
  patterns involved are simple enough that greedy matching with the
  bounded backtracking implemented below coincides with Python re
  semantics: every character class transition in the patterns is between
  disjoint classes, so the only choice points are the optional prefixes
  written out explicitly here.
-/

set_option maxRecDepth 4096

/-! ## Character classes (ASCII model of Python re classes) -/

def isWsChar (c : Char) : Bool :=
  c = ' ' || c = '\t' || c = '\n' || c = '\r' || c = '\x0b' || c = '\x0c'

def isDigitChar (c : Char) : Bool :=
  '0' ≤ c && c ≤ '9'

def isAsciiLetter (c : Char) : Bool :=
  ('a' ≤ c && c ≤ 'z') || ('A' ≤ c && c ≤ 'Z')

def isWordChar (c : Char) : Bool :=
  isAsciiLetter c || isDigitChar c || c = '_'

def lowerList (cs : List Char) : List Char :=
  cs.map Char.toLower

/-- Python str.strip(): drop whitespace from both ends. -/
def pyStrip (cs : List Char) : List Char :=
  ((cs.dropWhile isWsChar).reverse.dropWhile isWsChar).reverse

/-- Helper for pyTitle: prev records whether the previous char was a letter. -/
def pyTitleGo (prev : Bool) : List Char → List Char
  | [] => []
  | c :: rest =>
    if isAsciiLetter c then
      (if prev then Char.toLower c else Char.toUpper c) :: pyTitleGo true rest
    else c :: pyTitleGo false rest

/-- Python str.title() restricted to ASCII: uppercase a letter not preceded
by a letter, lowercase the remaining letters. -/
def pyTitle (cs : List Char) : List Char :=
  pyTitleGo false cs

/-- Exact split on a single separator character, Python str.split(sep). -/
def splitCharGo (sep : Char) (cur : List Char) : List Char → List (List Char)
  | [] => [cur.reverse]
  | c :: rest =>
    if c = sep then cur.reverse :: splitCharGo sep [] rest
    else splitCharGo sep (c :: cur) rest

def splitChar (sep : Char) (cs : List Char) : List (List Char) :=
  splitCharGo sep [] cs

mutual

/-- re.split of r means [;,]+ : a run of delimiters is one separator.
This function consumes non-delimiter characters. -/
def splitRunsAux (cur : List Char) : List Char → List (List Char)
  | [] => [cur.reverse]
  | c :: rest =>
    if c = ';' ∨ c = ',' then cur.reverse :: splitRunsSkip rest
    else splitRunsAux (c :: cur) rest

/-- Companion of splitRunsAux: consumes the remainder of a delimiter run. -/
def splitRunsSkip : List Char → List (List Char)
  | [] => [[]]
  | c :: rest =>
    if c = ';' ∨ c = ',' then splitRunsSkip rest
    else splitRunsAux [c] rest

end

def splitRuns (cs : List Char) : List (List Char) :=
  splitRunsAux [] cs

/-- Python substring containment, needle in haystack. -/
def isSubstr (needle : List Char) : List Char → Bool
  | [] => needle.isPrefixOf ([] : List Char)
  | c :: rest => needle.isPrefixOf (c :: rest) || isSubstr needle rest

/-- int() of a digits-only captured group. -/
def digitsToNat (cs : List Char) : Nat :=
  cs.foldl (fun a c => a * 10 + (c.toNat - '0'.toNat)) 0

/-! ## Fixed tables from scofield_parser.py -/

/-- BIBLE_BOOKS: abbreviation to full name, in the source's insertion
order (which is also dict iteration order). -/
def BIBLE_BOOKS : List (String × String) :=
  [("GEN", "Genesis"), ("EXO", "Exodus"), ("LEV", "Leviticus"), ("NUM", "Numbers"),
   ("DEU", "Deuteronomy"), ("JOS", "Joshua"), ("JDG", "Judges"), ("RUT", "Ruth"),
   ("1SA", "1 Samuel"), ("2SA", "2 Samuel"), ("1KI", "1 Kings"), ("2KI", "2 Kings"),
   ("1CH", "1 Chronicles"), ("2CH", "2 Chronicles"), ("EZR", "Ezra"), ("NEH", "Nehemiah"),
   ("EST", "Esther"), ("JOB", "Job"), ("PSA", "Psalms"), ("PRO", "Proverbs"),
   ("ECC", "Ecclesiastes"), ("SON", "Song of Solomon"), ("ISA", "Isaiah"), ("JER", "Jeremiah"),
   ("LAM", "Lamentations"), ("EZE", "Ezekiel"), ("DAN", "Daniel"), ("HOS", "Hosea"),
   ("JOE", "Joel"), ("AMO", "Amos"), ("OBA", "Obadiah"), ("JON", "Jonah"),
   ("MIC", "Micah"), ("NAH", "Nahum"), ("HAB", "Habakkuk"), ("ZEP", "Zephaniah"),
   ("HAG", "Haggai"), ("ZEC", "Zechariah"), ("MAL", "Malachi"), ("MAT", "Matthew"),
   ("MAR", "Mark"), ("LUK", "Luke"), ("JOH", "John"), ("ACT", "Acts"),
   ("ROM", "Romans"), ("1CO", "1 Corinthians"), ("2CO", "2 Corinthians"), ("GAL", "Galatians"),
   ("EPH", "Ephesians"), ("PHI", "Philippians"), ("COL", "Colossians"), ("1TH", "1 Thessalonians"),
   ("2TH", "2 Thessalonians"), ("1TI", "1 Timothy"), ("2TI", "2 Timothy"), ("TIT", "Titus"),
   ("PHM", "Philemon"), ("HEB", "Hebrews"), ("JAM", "James"), ("1PE", "1 Peter"),
   ("2PE", "2 Peter"), ("1JO", "1 John"), ("2JO", "2 John"), ("3JO", "3 John"),
   ("JUD", "Jude"), ("REV", "Revelation")]

def BOOK_CHAPTER_COUNTS : List (String × Nat) :=
  [("GEN", 50), ("EXO", 40), ("LEV", 27), ("NUM", 36), ("DEU", 34),
   ("JOS", 24), ("JDG", 21), ("RUT", 4), ("1SA", 31), ("2SA", 24),
   ("1KI", 22), ("2KI", 25), ("1CH", 29), ("2CH", 36), ("EZR", 10),
   ("NEH", 13), ("EST", 10), ("JOB", 42), ("PSA", 150), ("PRO", 31),
   ("ECC", 12), ("SON", 8), ("ISA", 66), ("JER", 52), ("LAM", 5),
   ("EZE", 48), ("DAN", 12), ("HOS", 14), ("JOE", 3), ("AMO", 9),
   ("OBA", 1), ("JON", 4), ("MIC", 7), ("NAH", 3), ("HAB", 3),
   ("ZEP", 3), ("HAG", 2), ("ZEC", 14), ("MAL", 4), ("MAT", 28),
   ("MAR", 16), ("LUK", 24), ("JOH", 21), ("ACT", 28), ("ROM", 16),
   ("1CO", 16), ("2CO", 13), ("GAL", 6), ("EPH", 6), ("PHI", 4),
   ("COL", 4), ("1TH", 5), ("2TH", 3), ("1TI", 6), ("2TI", 4),
   ("TIT", 3), ("PHM", 1), ("HEB", 13), ("JAM", 5), ("1PE", 5),
   ("2PE", 3), ("1JO", 5), ("2JO", 1), ("3JO", 1), ("JUD", 1),
   ("REV", 22)]

def chapterCountOf (ab : String) : Option Nat :=
  (BOOK_CHAPTER_COUNTS.find? (fun p => p.1 == ab)).map (fun p => p.2)

def SCOFIELD_THEMES : List String :=
  ["Dispensation", "Covenant Theology", "Grace", "Law vs. Grace", "Prophecy",
   "Kingdom of God", "Church Age", "Israel and the Church", "Gentiles",
   "Salvation", "Atonement", "Justification", "Sanctification", "Glorification",
   "Eschatology", "Second Coming", "Millennium", "Great White Throne",
   "Rapture", "Tribulation", "Antichrist", "Resurrection", "Judgment",
   "Heaven", "Hell", "New Jerusalem", "Eternal State",
   "Creation", "Fall of Man", "Redemption", "Covenants", "Promise",
   "Faith", "Hope", "Love", "Sin", "Repentance",
   "Forgiveness", "Mercy", "Justice", "Holiness", "Righteousness",
   "Deity of Christ", "Humanity of Christ", "Virgin Birth", "Incarnation",
   "Atoning Death", "Resurrection", "Ascension", "High Priest",
   "Mediator", "Advocate", "King of Kings", "Lord of Lords"]

/-! ## The reference pattern matcher

Fragment pattern of _parse_verse_reference, with re.IGNORECASE, anchored
by re.match:
  group 1 is an optional digit 1-3, an optional whitespace, then two or
  more letters; after group 1 an optional dot, whitespace, chapter digits,
  a colon, start-verse digits and an optional dash with end-verse digits.
The cue-introduced pattern of cross_ref_pattern shares the same shape but
has no dash part and its group also contains the chapter:verse tail. -/

def matchLetters (cs : List Char) : Option (List Char × List Char) :=
  let p := cs.span isAsciiLetter
  if p.1.length ≥ 2 then some (p.1, p.2) else none

def tryLetters (pre : List Char) (cs : List Char) : Option (List Char × List Char) :=
  (matchLetters cs).map (fun p => (pre ++ p.1, p.2))

/-- Matches the token form of [1-3]? \s? [A-Z][a-z]+ (with IGNORECASE
collapsing both letter classes to any ASCII letter).  The alternatives are
tried in the backtracking order of the Python engine; on any given input
at most one alternative can match, since their first characters lie in
disjoint classes. -/
def matchBookToken (cs : List Char) : Option (List Char × List Char) :=
  (match cs with
   | c :: rest =>
     if '1' ≤ c ∧ c ≤ '3' then
       match rest with
       | w :: rest2 =>
         if isWsChar w then (tryLetters [c, w] rest2).orElse (fun _ => tryLetters [c] rest)
         else tryLetters [c] rest
       | [] => tryLetters [c] ([] : List Char)
     else none
   | [] => none).orElse (fun _ =>
    match cs with
    | w :: rest2 =>
      if isWsChar w then (tryLetters [w] rest2).orElse (fun _ => tryLetters [] cs)
      else tryLetters [] cs
    | [] => none)

/-- The tail after the book token. With allowRange this is
 dot? ws+ (digits) colon (digits) (dash digits)?  and without it the
dash part is absent.  Returns (chapter group, start group, end group,
rest of the input after the match). -/
def matchChVerse (allowRange : Bool) (cs : List Char) :
    Option (List Char × List Char × Option (List Char) × List Char) :=
  let cs1 := match cs with
    | '.' :: t => t
    | _ => cs
  let pws := cs1.span isWsChar
  if pws.1 = [] then none else
  let pch := pws.2.span isDigitChar
  if pch.1 = [] then none else
  match pch.2 with
  | ':' :: cs4 =>
    let psv := cs4.span isDigitChar
    if psv.1 = [] then none else
    if allowRange then
      match psv.2 with
      | '-' :: cs6 =>
        let pev := cs6.span isDigitChar
        if pev.1 = [] then some (pch.1, psv.1, none, psv.2)
        else some (pch.1, psv.1, some pev.1, pev.2)
      | _ => some (pch.1, psv.1, none, psv.2)
    else some (pch.1, psv.1, none, psv.2)
  | _ => none

/-- re.match of the fragment pattern: returns the book-name group, the
chapter group, the start-verse group and the optional end-verse group. -/
def matchFragment (cs : List Char) :
    Option (List Char × List Char × List Char × Option (List Char)) :=
  match matchBookToken cs with
  | none => none
  | some (book, rest) =>
    match matchChVerse true rest with
    | none => none
    | some (ch, sv, ev, _) => some (book, ch, sv, ev)

/-! ## Book-name resolution (_book_name_to_abbrev) -/

def bookVariations : List (String × String) :=
  [("Psalms", "PSA"), ("Psalm", "PSA"), ("Song of Solomon", "SON"),
   ("Song of Songs", "SON"), ("Ecclesiastes", "ECC"),
   ("Revelation", "REV"), ("Revelations", "REV")]

def book_name_to_abbrev (book_name : List Char) : Option String :=
  let bn : String := String.mk (pyTitle (pyStrip book_name))
  match bookVariations.find? (fun p => p.1 == bn) with
  | some p => some p.2
  | none =>
    match BIBLE_BOOKS.find? (fun p => lowerList p.2.toList == lowerList bn.toList) with
    | some p => some p.1
    | none =>
      match BIBLE_BOOKS.find? (fun p => isSubstr (lowerList bn.toList) (lowerList p.2.toList)) with
      | some p => some p.1
      | none => none

/-! ## _parse_verse_reference -/

/-- The verse id emitted for one integer of an expanded range: note the
chapter part is the raw captured digit string, exactly as in the source
f-string, while the verse number is the formatted integer. -/
def mkVerseId (ab : String) (ch : List Char) (v : Nat) : String :=
  ab ++ "." ++ String.mk ch ++ "." ++ toString v

/-- The verse ids one stripped fragment contributes. -/
def fragmentVerseIds (frag : List Char) : List String :=
  match matchFragment frag with
  | none => []
  | some (book, ch, sv, ev) =>
    match book_name_to_abbrev book with
    | none => []
    | some ab =>
      let start := digitsToNat sv
      let stop := match ev with
        | none => start
        | some e => digitsToNat e
      (List.range' start (stop + 1 - start)).map (fun v => mkVerseId ab ch v)

def parseVerseRefList (cs : List Char) : List String :=
  (splitRuns cs).flatMap (fun part =>
    let p := pyStrip part
    if p = [] then [] else fragmentVerseIds p)

def parse_verse_reference (ref_str : String) : List String :=
  parseVerseRefList ref_str.toList

/-! ## Data models (the dataclasses of scofield_parser.py) -/

structure BibleVerse where
  book : String
  chapter : Nat
  verse : Nat
  text : String
  note_ids : List String
  keywords : List String
deriving DecidableEq, Repr

structure ScofieldNote where
  note_id : String
  text : String
  linked_verses : List String
  note_type : String
  category : String
  subcategory : String
  keywords : List String
  theme_tags : List String
  related_notes : List String
deriving DecidableEq, Repr

/-- Python float 0.8 and the score min(1.0, n / 100) are modelled as exact
rationals: the pipeline only constructs and compares these constants. -/
structure CrossReference where
  source_id : String
  target_id : String
  ref_type : String
  description : String
  confidence : ℚ
  tags : List String
deriving DecidableEq, Repr

structure ThematicIndex where
  theme_id : String
  name : String
  description : String
  note_ids : List String
  verse_ids : List String
  categories : List String
  sub_themes : List String
  parent_themes : List String
  confidence_score : ℚ
deriving DecidableEq, Repr

def ThematicIndex.total_references (t : ThematicIndex) : Nat :=
  t.note_ids.length + t.verse_ids.length

structure ReadingPlan where
  plan_id : String
  name : String
  description : String
  days : List (List String)
  theme : String
  estimated_minutes : Nat
  tags : List String
deriving DecidableEq, Repr

/-! ## cross_ref_pattern scanning (findall + _extract_cross_refs_from_note)

The pattern is (?:See|cf\.|compare|v\.?|verse)\s+ followed by the
capturing group [1-3]?\s?[A-Z][a-z]+\.?\s+\d+:\d+ with IGNORECASE.
Note the group has no -\d+ part: a range after a cue phrase is cut at the
start verse. -/

/-- Case-insensitive literal match of a cue word; returns the rest. -/
def matchCI (lit : List Char) (cs : List Char) : Option (List Char) :=
  match lit, cs with
  | [], rest => some rest
  | _ :: _, [] => none
  | l :: ls, c :: rest =>
    if Char.toLower c = Char.toLower l then matchCI ls rest else none

/-- The captured group of cross_ref_pattern: book token then the rangeless
chapter:verse tail.  Returns (captured text, rest of input). -/
def matchCrossGroup (cs : List Char) : Option (List Char × List Char) :=
  match matchBookToken cs with
  | none => none
  | some (_, rest1) =>
    match matchChVerse false rest1 with
    | some (_, _, _, rest2) => some (cs.take (cs.length - rest2.length), rest2)
    | none => none

/-- After a cue word: \s+ then the captured group. -/
def matchAfterCue (rest : List Char) : Option (List Char × List Char) :=
  let p := rest.span isWsChar
  if p.1 = [] then none else matchCrossGroup p.2

def tryCue (lit : String) (cs : List Char) : Option (List Char × List Char) :=
  match matchCI lit.toList cs with
  | none => none
  | some rest => matchAfterCue rest

/-- One attempt of cross_ref_pattern at the current position.  The cue
alternatives are tried in the engine's backtracking order: See, cf.,
compare, v., v, verse. -/
def matchCrossAt (cs : List Char) : Option (List Char × List Char) :=
  ((((tryCue "See" cs).orElse (fun _ => tryCue "cf." cs)).orElse
      (fun _ => tryCue "compare" cs)).orElse
      (fun _ => (tryCue "v." cs).orElse (fun _ => tryCue "v" cs))).orElse
      (fun _ => tryCue "verse" cs)

/-- findall scan: try a match at each position, continue after a match.
The fuel argument bounds the scan; every step consumes at least one
character, so fuel = length of the input is always sufficient. -/
def crossRefFindallAux : Nat → List Char → List (List Char)
  | 0, _ => []
  | _ + 1, [] => []
  | fuel + 1, c :: rest =>
    match matchCrossAt (c :: rest) with
    | some (grp, after) => grp :: crossRefFindallAux fuel after
    | none => crossRefFindallAux fuel rest

def crossRefFindall (cs : List Char) : List (List Char) :=
  crossRefFindallAux cs.length cs

/-- _extract_cross_refs_from_note: one explanation edge of confidence 0.8
per verse resolved from each cue-introduced citation. -/
def extract_cross_refs_from_note (note_id : String) (note_text : String) :
    List CrossReference :=
  (crossRefFindall note_text.toList).flatMap (fun ref_str =>
    (parseVerseRefList ref_str).map (fun target_id =>
      { source_id := note_id
        target_id := target_id
        ref_type := "explanation"
        description := "Referenced in note " ++ note_id
        confidence := 4 / 5
        tags := [] }))

/-! ## _extract_themes_from_note -/

/-- re.search of backslash-b followed by a literal stem (whose first
character is a word character, true of every taxonomy entry): the stem
occurs at position 0 or right after a non-word character. -/
def boundarySearchGo (stem : List Char) : List Char → Bool
  | [] => false
  | c :: rest =>
    (!isWordChar c && stem.isPrefixOf rest) || boundarySearchGo stem rest

def boundarySearch (stem : List Char) (text : List Char) : Bool :=
  stem.isPrefixOf text || boundarySearchGo stem text

/-- Theme tagging: case-insensitive substring match of the theme name, or
a word-boundary match of the name minus its last character. -/
def extract_themes_from_note (note_text : String) : List String :=
  let nl := lowerList note_text.toList
  SCOFIELD_THEMES.filter (fun theme =>
    let tl := lowerList theme.toList
    isSubstr tl nl || boundarySearch tl.dropLast nl)

/-! ## _parse_notes_tsv: per-line state transition of the Note Builder -/

structure ParserState where
  verses : List (String × BibleVerse)
  notes : List (String × ScofieldNote)
  cross_refs : List CrossReference
  note_counter : Nat
deriving DecidableEq, Repr

/-- Python format f-string 04d: pad with zeros to at least four digits. -/
def pad4 (n : Nat) : String :=
  let s := toString n
  if s.length < 4 then String.mk (List.replicate (4 - s.length) '0') ++ s else s

/-- Append a note id to the store entry of verse_id, when present. -/
def appendNoteId (vs : List (String × BibleVerse)) (verse_id note_id : String) :
    List (String × BibleVerse) :=
  vs.map (fun p =>
    if p.1 = verse_id then (p.1, { p.2 with note_ids := p.2.note_ids ++ [note_id] })
    else p)

/-- The body of the per-row branch of _parse_notes_tsv: resolve the
reference, and when at least one verse resolves create the note, link it
to the verses present in the store, advance the counter and extract the
cross references from the note text. -/
def processNoteRow (s : ParserState) (ref_str note_text category : String)
    (keywords : List String) : ParserState :=
  let verse_refs := parse_verse_reference ref_str
  if verse_refs = [] then s
  else
    let note_id := "N" ++ pad4 s.note_counter
    let note : ScofieldNote :=
      { note_id := note_id
        text := note_text
        linked_verses := verse_refs
        note_type := "explanatory"
        category := category
        subcategory := ""
        keywords := (keywords.map (fun k => String.mk (pyStrip k.toList))).filter (fun k => k ≠ "")
        theme_tags := extract_themes_from_note note_text
        related_notes := [] }
    { verses := verse_refs.foldl (fun vs vid => appendNoteId vs vid note_id) s.verses
      notes := s.notes ++ [(note_id, note)]
      cross_refs := s.cross_refs ++ extract_cross_refs_from_note note_id note_text
      note_counter := s.note_counter + 1 }

/-- One line of the notes TSV file: strip, skip blanks and comment lines,
split on tabs, and with three or more fields run the row body on the
stripped reference, text and category and the raw comma-split keywords. -/
def processNotesLine (s : ParserState) (line : String) : ParserState :=
  let l := pyStrip line.toList
  if l = [] then s
  else if l.head? = some '#' then s
  else
    match splitChar '\t' l with
    | p0 :: p1 :: p2 :: rest =>
      let keywords := match rest with
        | k :: _ => (splitChar ',' k).map String.mk
        | [] => []
      processNoteRow s (String.mk (pyStrip p0)) (String.mk (pyStrip p1))
        (String.mk (pyStrip p2)) keywords
    | _ => s

/-! ## build_thematic_network (passes 1 and 2 of the Thematic Indexer) -/

def lookupAssoc {α : Type} (m : List (String × α)) (k : String) : Option α :=
  (m.find? (fun p => p.1 == k)).map (fun p => p.2)

/-- defaultdict(list) access followed by extend: grow the entry of k by vs,
creating the entry at the end on first touch (dict insertion order). -/
def appendAssocMany (m : List (String × List String)) (k : String)
    (vs : List String) : List (String × List String) :=
  if m.any (fun p => p.1 == k) then
    m.map (fun p => if p.1 == k then (p.1, p.2 ++ vs) else p)
  else m ++ [(k, vs)]

/-- Pass 1, note side of theme_to_notes: every note appends its id under
each of its theme tags. -/
def buildThemeToNotes (notes : List (String × ScofieldNote)) :
    List (String × List String) :=
  notes.foldl (fun m p =>
    p.2.theme_tags.foldl (fun m2 th => appendAssocMany m2 th [p.1]) m) []

/-- Pass 1, theme_to_verses: notes extend by their linked verses, then
verses append under each keyword whose title case is a taxonomy name. -/
def buildThemeToVerses (notes : List (String × ScofieldNote))
    (verses : List (String × BibleVerse)) : List (String × List String) :=
  let m1 := notes.foldl (fun m p =>
    p.2.theme_tags.foldl (fun m2 th => appendAssocMany m2 th p.2.linked_verses) m) []
  verses.foldl (fun m p =>
    p.2.keywords.foldl (fun m2 kw =>
      let t := String.mk (pyTitle kw.toList)
      if SCOFIELD_THEMES.contains t then appendAssocMany m2 t [p.1] else m2) m) m1

/-- Keep the first occurrence of each element, deleting later duplicates.
Python materializes list(set(collected)); set iteration order is not
specified, so the embedding fixes first-occurrence order, which has the
same members and the same length as any set order. -/
def dedupFirst (l : List String) : List String :=
  match l with
  | [] => []
  | x :: rest => x :: dedupFirst (rest.filter (fun y => y ≠ x))
termination_by l.length
decreasing_by
  exact Nat.lt_succ_of_le (List.length_filter_le _ _)

/-- Python format 03d: pad with zeros to at least three digits. -/
def pad3 (n : Nat) : String :=
  let s := toString n
  if s.length < 3 then String.mk (List.replicate (3 - s.length) '0') ++ s else s

/-- Pass 2: materialize one ThematicIndex per theme that received a note,
with the saturating confidence min(1, (notes + verses) / 100). -/
def mkThematicEntry (counter : Nat) (theme_name : String) (nids : List String)
    (t2v : List (String × List String)) : ThematicIndex :=
  let vids := dedupFirst ((lookupAssoc t2v theme_name).getD [])
  { theme_id := "T" ++ pad3 counter
    name := theme_name
    description := "References to " ++ theme_name ++ " in Scofield notes"
    note_ids := nids
    verse_ids := vids
    categories := []
    sub_themes := []
    parent_themes := []
    confidence_score := min 1 (((nids.length + vids.length : Nat) : ℚ) / 100) }

def materializeThemes (t2v : List (String × List String)) (counter : Nat) :
    List (String × List String) → List ThematicIndex
  | [] => []
  | (nm, nids) :: rest =>
    mkThematicEntry counter nm nids t2v :: materializeThemes t2v (counter + 1) rest

def build_thematic_entries (notes : List (String × ScofieldNote))
    (verses : List (String × BibleVerse)) : List ThematicIndex :=
  materializeThemes (buildThemeToVerses notes verses) 1 (buildThemeToNotes notes)

/-! ## _build_theme_relationships (pass 3, hierarchy) -/

def theme_hierarchies : List (String × List String) :=
  [("Dispensation", ["Law vs. Grace", "Church Age", "Millennium"]),
   ("Covenant Theology", ["Promise", "Israel and the Church"]),
   ("Eschatology", ["Second Coming", "Rapture", "Tribulation", "Millennium"]),
   ("Salvation", ["Justification", "Sanctification", "Glorification"]),
   ("Christological Themes", ["Deity of Christ", "Humanity of Christ", "Atoning Death"])]

def modifyAt (ts : List ThematicIndex) (j : Nat)
    (f : ThematicIndex → ThematicIndex) : List ThematicIndex :=
  match ts.get? j with
  | some t => ts.set j (f t)
  | none => ts

/-- One matched parent/child pair: the source appends the parent id to the
child's parent list and the child id to the parent's sub list, in that
order; when p = j both appends land on the same record. -/
def linkPair (ts : List ThematicIndex) (p j : Nat) : List ThematicIndex :=
  match ts.get? p, ts.get? j with
  | some parent, some child =>
    let ts1 := modifyAt ts j
      (fun t => { t with parent_themes := t.parent_themes ++ [parent.theme_id] })
    modifyAt ts1 p (fun t => { t with sub_themes := t.sub_themes ++ [child.theme_id] })
  | _, _ => ts

/-- The inner loop over the whole index for one child name: every record
whose name matches is linked (the source has no break here). -/
def linkChildren (ts : List ThematicIndex) (p : Nat) (child_name : String) :
    List ThematicIndex :=
  (List.range ts.length).foldl (fun acc j =>
    match acc.get? j with
    | some t => if t.name = child_name then linkPair acc p j else acc
    | none => acc) ts

/-- One hierarchy rule: find the first record with the parent name (the
source breaks at the first match) and link all matching children. -/
def applyHierarchyRule (ts : List ThematicIndex) (rule : String × List String) :
    List ThematicIndex :=
  match ts.findIdx? (fun t => t.name == rule.1) with
  | some p => rule.2.foldl (fun acc c => linkChildren acc p c) ts
  | none => ts

def build_theme_relationships (ts : List ThematicIndex) : List ThematicIndex :=
  theme_hierarchies.foldl applyHierarchyRule ts

def build_thematic_network (notes : List (String × ScofieldNote))
    (verses : List (String × BibleVerse)) : List ThematicIndex :=
  build_theme_relationships (build_thematic_entries notes verses)

/-! ## generate_reading_plans -/

/-- Group a theme's verse ids by the book of the store record, dropping
ids absent from the store, buckets in first-seen order. -/
def groupVersesByBook (verse_ids : List String)
    (verses : List (String × BibleVerse)) : List (String × List String) :=
  verse_ids.foldl (fun m vid =>
    match lookupAssoc verses vid with
    | some v => appendAssocMany m v.book [vid]
    | none => m) []

/-- The chunking step of the daily-readings loop: close the current day
before adding a verse whenever it already holds 10. -/
def pushVerse (st : List (List String) × List String) (v : String) :
    List (List String) × List String :=
  if st.2.length ≥ 10 then (st.1 ++ [st.2], [v]) else (st.1, st.2 ++ [v])

def packState (groups : List (String × List String)) :
    List (List String) × List String :=
  groups.foldl (fun st p => (p.2.take 20).foldl pushVerse st) ([], [])

/-- The full daily-readings loop: per book take at most 20 verses, chunk
into days of 10, and append the trailing partial day when non-empty. -/
def packDays (groups : List (String × List String)) : List (List String) :=
  let st := packState groups
  if st.2 = [] then st.1 else st.1 ++ [st.2]

def major_themes : List String :=
  ["Dispensation", "Covenant Theology", "Salvation", "Eschatology"]

def mkReadingPlan (counter : Nat) (theme_name : String)
    (days : List (List String)) : ReadingPlan :=
  { plan_id := "P" ++ pad3 counter
    name := "Scofield Study: " ++ theme_name
    description := "Study " ++ theme_name ++ " through key Scofield references"
    days := days
    theme := theme_name
    estimated_minutes := days.length * 15
    tags := [theme_name, "Scofield", "Study"] }

def generatePlansAux (ti : List ThematicIndex)
    (verses : List (String × BibleVerse)) (counter : Nat) :
    List String → List ReadingPlan
  | [] => []
  | theme_name :: rest =>
    match ti.find? (fun idx => idx.name == theme_name) with
    | some entry =>
      if entry.total_references > 10 then
        let days := packDays (groupVersesByBook entry.verse_ids verses)
        if days = [] then generatePlansAux ti verses counter rest
        else mkReadingPlan counter theme_name days ::
          generatePlansAux ti verses (counter + 1) rest
      else generatePlansAux ti verses counter rest
    | none => generatePlansAux ti verses counter rest

def generate_reading_plans (ti : List ThematicIndex)
    (verses : List (String × BibleVerse)) : List ReadingPlan :=
  generatePlansAux ti verses 1 major_themes

/-! ## Properties and concrete inputs used by the verification -/

/-- Every note held in the note table links at least one verse. -/
def NotesNonEmpty (s : ParserState) : Prop :=
  ∀ p ∈ s.notes, p.2.linked_verses ≠ []

/-- A fresh run state over a loaded verse store, before any note line:
the note counter starts at 1. -/
def initParserState (verses : List (String × BibleVerse)) : ParserState :=
  { verses := verses, notes := [], cross_refs := [], note_counter := 1 }

/-- Whether a fragment both matches the reference pattern and has a
resolvable book token. -/
def fragBookResolves (frag : List Char) : Bool :=
  match matchFragment frag with
  | some (book, _, _, _) => (book_name_to_abbrev book).isSome
  | none => false

/-- Symmetry of hierarchy links, stated over positions of the index. -/
def SymInv (ts : List ThematicIndex) : Prop :=
  ∀ i k (hi : i < ts.length) (hk : k < ts.length),
    (ts[k].theme_id ∈ ts[i].sub_themes ↔ ts[i].theme_id ∈ ts[k].parent_themes)

/-- The hierarchy pass only grows link lists: ids, names, note and verse
lists and scores at every position are untouched. -/
def CoreEq (ts ts2 : List ThematicIndex) : Prop :=
  ts2.length = ts.length ∧
  ∀ i (hi : i < ts.length) (hi2 : i < ts2.length),
    ts2[i].theme_id = ts[i].theme_id ∧ ts2[i].name = ts[i].name ∧
    ts2[i].note_ids = ts[i].note_ids ∧ ts2[i].verse_ids = ts[i].verse_ids ∧
    ts2[i].confidence_score = ts[i].confidence_score

/-- Day-chunk invariant of the reading-plan packing loop. -/
def dayBound (st : List (List String) × List String) : Prop :=
  (∀ d ∈ st.1, d.length ≤ 10) ∧ st.2.length ≤ 10

/-- Total number of verse ids held by the packing state. -/
def stSum (st : List (List String) × List String) : Nat :=
  (st.1.map List.length).sum + st.2.length

/-! Concrete inputs for the end-to-end scenario and the witnesses. -/

def gen11 : BibleVerse :=
  { book := "GEN", chapter := 1, verse := 1,
    text := "In the beginning God created the heaven and the earth.",
    note_ids := [], keywords := [] }

def scenarioState : ParserState := initParserState [("GEN.1.1", gen11)]

def scenarioLine : String :=
  "Genesis 1:1\tThe first creative act ... See John 1:1-3\tCreation"

def scenarioResult : ParserState := processNotesLine scenarioState scenarioLine

def scenarioNote : ScofieldNote :=
  { note_id := "N0001"
    text := "The first creative act ... See John 1:1-3"
    linked_verses := ["GEN.1.1"]
    note_type := "explanatory"
    category := "Creation"
    subcategory := ""
    keywords := []
    theme_tags := []
    related_notes := [] }

def scenarioEdge : CrossReference :=
  { source_id := "N0001"
    target_id := "JOH.1.1"
    ref_type := "explanation"
    description := "Referenced in note N0001"
    confidence := 4 / 5
    tags := [] }

def outOfRangeResult : ParserState :=
  processNoteRow scenarioState "Genesis 99:1" "A note" "" []

def partialRangeResult : ParserState :=
  processNoteRow scenarioState "Genesis 1:1-2" "A note" "" []

def sampleEdge : CrossReference :=
  { source_id := "N0001"
    target_id := "JOH.1.1"
    ref_type := "explanation"
    description := "Referenced in note N0001"
    confidence := 4 / 5
    tags := [] }

def graceNote : ScofieldNote :=
  { note_id := "N0001"
    text := "grace"
    linked_verses := ["GEN.1.1"]
    note_type := "explanatory"
    category := ""
    subcategory := ""
    keywords := []
    theme_tags := ["Grace"]
    related_notes := [] }

def graceNotes : List (String × ScofieldNote) := [("N0001", graceNote)]

def graceEntryOut : ThematicIndex :=
  mkThematicEntry 1 "Grace" ["N0001"] (buildThemeToVerses graceNotes [])

def mkBareTheme (tid nm : String) : ThematicIndex :=
  { theme_id := tid, name := nm, description := "", note_ids := [],
    verse_ids := [], categories := [], sub_themes := [], parent_themes := [],
    confidence_score := 0 }

def hierPairInput : List ThematicIndex :=
  [mkBareTheme "T001" "Dispensation", mkBareTheme "T002" "Millennium"]

def hierParentOut : ThematicIndex :=
  { mkBareTheme "T001" "Dispensation" with sub_themes := ["T002"] }

def hierChildOut : ThematicIndex :=
  { mkBareTheme "T002" "Millennium" with parent_themes := ["T001"] }

def salvEntry : ThematicIndex :=
  { theme_id := "T001"
    name := "Salvation"
    description := ""
    note_ids := ["N0001", "N0002", "N0003", "N0004", "N0005", "N0006",
                 "N0007", "N0008", "N0009", "N0010", "N0011"]
    verse_ids := ["GEN.1.1"]
    categories := []
    sub_themes := []
    parent_themes := []
    confidence_score := 0 }

def salvStore : List (String × BibleVerse) := [("GEN.1.1", gen11)]

def salvPlan : ReadingPlan := mkReadingPlan 1 "Salvation" [["GEN.1.1"]]

/-! ## Theorems -/

theorem fragmentVerseIds_eq_nil (frag : List Char)
    (h : fragBookResolves frag = false) : fragmentVerseIds frag = [] := by
  unfold fragBookResolves at h
  unfold fragmentVerseIds
  cases hm : matchFragment frag with
  | none => rfl
  | some t =>
    obtain ⟨book, ch, sv, ev⟩ := t
    rw [hm] at h
    simp only at h
    cases hb : book_name_to_abbrev book with
    | none => simp [hb]
    | some ab =>
      rw [hb] at h
      exact absurd h (by simp)

/-- C8: for every input string whose fragments either fail the reference
pattern or carry an unresolvable book token, the Reference Parser returns
the empty list; the parser is a total function, so no exception can be
raised; in particular parsing Xyz 1:1 yields the empty list. -/
theorem unknown_book_empty_result :
    parse_verse_reference "Xyz 1:1" = [] ∧
    ∀ ref_str : String,
      (∀ part ∈ splitRuns ref_str.toList, fragBookResolves (pyStrip part) = false) →
      parse_verse_reference ref_str = [] := by
  constructor
  · decide
  · intro ref h
    unfold parse_verse_reference parseVerseRefList
    rw [List.flatMap_eq_nil_iff]
    intro part hp
    by_cases hnil : pyStrip part = []
    · simp [hnil]
    · simp [hnil, fragmentVerseIds_eq_nil _ (h part hp)]

/-- Witness for C8 at the concrete input Xyz 1:1. -/
theorem unknown_book_empty_result_witness :
    parse_verse_reference "Xyz 1:1" = [] :=
  unknown_book_empty_result.2 "Xyz 1:1" (by decide)

/-- C2: a fragment that matches the reference pattern with a resolvable
book, chapter, start verse and explicit end verse contributes exactly one
verse id per integer of the inclusive range, in increasing order (the
image of List.range'); in particular Genesis 1:1-3 parses to GEN.1.1,
GEN.1.2, GEN.1.3. -/
theorem range_expansion_correct :
    (∀ (frag book ch sv ev : List Char) (ab : String),
      matchFragment frag = some (book, ch, sv, some ev) →
      book_name_to_abbrev book = some ab →
      fragmentVerseIds frag =
        (List.range' (digitsToNat sv) (digitsToNat ev + 1 - digitsToNat sv)).map
          (fun v => mkVerseId ab ch v)) ∧
    parse_verse_reference "Genesis 1:1-3" = ["GEN.1.1", "GEN.1.2", "GEN.1.3"] := by
  constructor
  · intro frag book ch sv ev ab hm hb
    unfold fragmentVerseIds
    rw [hm]
    simp [hb]
  · decide

/-- Witness for C2 at the fragment Genesis 1:1-3. -/
theorem range_expansion_correct_witness :
    fragmentVerseIds "Genesis 1:1-3".toList =
      (List.range' (digitsToNat "1".toList)
          (digitsToNat "3".toList + 1 - digitsToNat "1".toList)).map
        (fun v => mkVerseId "GEN" "1".toList v) :=
  range_expansion_correct.1 "Genesis 1:1-3".toList "Genesis".toList "1".toList
    "1".toList "3".toList "GEN" (by decide) (by decide)

/-- C9 counterexample: the note text grace covenant contains the word
grace and the word covenant (shown by the substring and word-boundary
facts below), yet its theme tags are Grace and Covenants: the taxonomy
entry Covenant Theology is NOT among them, because the stem heuristic
strips one character from the full two-word name. -/
theorem covenant_theology_tag_counterexample :
    isSubstr "grace".toList (lowerList "grace covenant".toList) = true ∧
    boundarySearch "covenant".toList (lowerList "grace covenant".toList) = true ∧
    extract_themes_from_note "grace covenant" = ["Grace", "Covenants"] ∧
    "Covenant Theology" ∉ extract_themes_from_note "grace covenant" := by
  decide

/-- C9 amended: a note text containing grace (as a case-insensitive
substring) and covenant (at a word boundary, case-insensitively) is
tagged with both Grace and Covenants taxonomy entries. -/
theorem grace_covenant_tags_amended :
    ∀ note_text : String,
      isSubstr "grace".toList (lowerList note_text.toList) = true →
      boundarySearch "covenant".toList (lowerList note_text.toList) = true →
      "Grace" ∈ extract_themes_from_note note_text ∧
      "Covenants" ∈ extract_themes_from_note note_text := by
  intro t h1 h2
  have key : ∀ th : String, th ∈ SCOFIELD_THEMES →
      (isSubstr (lowerList th.toList) (lowerList t.toList)
        || boundarySearch (lowerList th.toList).dropLast (lowerList t.toList)) = true →
      th ∈ extract_themes_from_note t := by
    intro th hmem hp
    unfold extract_themes_from_note
    exact List.mem_filter.mpr ⟨hmem, hp⟩
  constructor
  · apply key "Grace" (by decide)
    have e1 : lowerList "Grace".toList = "grace".toList := by decide
    rw [e1, Bool.or_eq_true]
    exact Or.inl h1
  · apply key "Covenants" (by decide)
    have e2 : (lowerList "Covenants".toList).dropLast = "covenant".toList := by decide
    rw [e2, Bool.or_eq_true]
    exact Or.inr h2

/-- Witness for the amended C9 at the concrete text grace covenant. -/
theorem grace_covenant_tags_amended_witness :
    "Grace" ∈ extract_themes_from_note "grace covenant" ∧
    "Covenants" ∈ extract_themes_from_note "grace covenant" :=
  grace_covenant_tags_amended "grace covenant" (by decide) (by decide)

/-- C1 counterexample: on the end-to-end scenario input (verse store with
GEN.1.1, note row Genesis 1:1 with text ending See John 1:1-3) exactly
one cross-reference edge is emitted and its target is JOH.1.1: no edge
with target JOH.1.2 or JOH.1.3 exists, because cross_ref_pattern captures
a cue-introduced citation without its dash range part. -/
theorem end_to_end_cross_ref_range_counterexample :
    scenarioResult.notes.map (fun p => p.2.linked_verses) = [["GEN.1.1"]] ∧
    scenarioResult.cross_refs.map (fun e => e.target_id) = ["JOH.1.1"] ∧
    ∀ e ∈ scenarioResult.cross_refs,
      e.target_id ≠ "JOH.1.2" ∧ e.target_id ≠ "JOH.1.3" := by
  decide

/-- C1 amended: on the end-to-end scenario input the Note Builder creates
exactly one note N0001 linked to GEN.1.1 (and the store verse records the
back-reference), and the Cross-Reference Extractor emits exactly one edge
N0001 to JOH.1.1 with ref_type explanation and confidence 0.8: the cue
pattern keeps only the start verse of the cited range. -/
theorem end_to_end_scenario_amended :
    scenarioResult.notes = [("N0001", scenarioNote)] ∧
    scenarioResult.cross_refs = [scenarioEdge] ∧
    scenarioResult.verses = [("GEN.1.1", { gen11 with note_ids := ["N0001"] })] :=
  ⟨by decide, rfl, by decide⟩

/-- C10: the Reference Parser performs no chapter-count validation:
Genesis 99:1 resolves to GEN.99.1 although Genesis has only 50 chapters;
the Note Builder stores the unvalidated id in linked_verses while the
verse store receives no back-reference (the id is absent from it), and in
a mixed range only store-resident ids receive back-references. -/
theorem unvalidated_verse_ids_linked :
    parse_verse_reference "Genesis 99:1" = ["GEN.99.1"] ∧
    chapterCountOf "GEN" = some 50 ∧ 50 < 99 ∧
    outOfRangeResult.notes.map (fun p => p.2.linked_verses) = [["GEN.99.1"]] ∧
    outOfRangeResult.verses = scenarioState.verses ∧
    (∀ p ∈ scenarioState.verses, p.1 ≠ "GEN.99.1") ∧
    partialRangeResult.notes.map (fun p => p.2.linked_verses) = [["GEN.1.1", "GEN.1.2"]] ∧
    partialRangeResult.verses.map (fun p => (p.1, p.2.note_ids)) = [("GEN.1.1", ["N0001"])] := by
  decide

theorem processNoteRow_nil (s : ParserState) (ref_str note_text category : String)
    (keywords : List String) (h : parse_verse_reference ref_str = []) :
    processNoteRow s ref_str note_text category keywords = s := by
  unfold processNoteRow
  simp [h]

theorem processNoteRow_notesNonEmpty (s : ParserState)
    (ref_str note_text category : String) (keywords : List String)
    (h : NotesNonEmpty s) :
    NotesNonEmpty (processNoteRow s ref_str note_text category keywords) := by
  unfold processNoteRow
  by_cases hr : parse_verse_reference ref_str = []
  · simp only [if_pos hr]
    exact h
  · simp only [if_neg hr]
    intro p hp
    rcases List.mem_append.mp hp with h1 | h2
    · exact h p h1
    · rw [List.mem_singleton] at h2
      subst h2
      exact hr

theorem processNotesLine_notesNonEmpty (s : ParserState) (line : String)
    (h : NotesNonEmpty s) : NotesNonEmpty (processNotesLine s line) := by
  simp only [processNotesLine]
  split
  · exact h
  · split
    · exact h
    · split
      · exact processNoteRow_notesNonEmpty _ _ _ _ _ h
      · exact h

theorem foldl_processNotesLine_notesNonEmpty (lines : List String)
    (s : ParserState) (h : NotesNonEmpty s) :
    NotesNonEmpty (lines.foldl processNotesLine s) := by
  induction lines generalizing s with
  | nil => exact h
  | cons a t ih => exact ih _ (processNotesLine_notesNonEmpty s a h)

/-- C3: a note row whose reference string resolves to zero verse ids is
discarded entirely: the run state (note table, verse store, cross
references and note counter) is unchanged; every note line preserves the
invariant that notes link at least one verse, so over any note file every
note held in the note table has a non-empty linked_verses list. -/
theorem orphan_note_discarded :
    (∀ (s : ParserState) (ref_str note_text category : String)
      (keywords : List String),
      parse_verse_reference ref_str = [] →
      processNoteRow s ref_str note_text category keywords = s) ∧
    (∀ (s : ParserState) (line : String),
      NotesNonEmpty s → NotesNonEmpty (processNotesLine s line)) ∧
    ∀ (verses : List (String × BibleVerse)) (lines : List String),
      NotesNonEmpty (lines.foldl processNotesLine (initParserState verses)) := by
  refine ⟨processNoteRow_nil, processNotesLine_notesNonEmpty, ?_⟩
  intro verses lines
  exact foldl_processNotesLine_notesNonEmpty lines _
    (fun p hp => absurd hp (List.not_mem_nil p))

/-- Witness for C3: a concrete unresolvable row leaves the state
unchanged, and a concrete line keeps the note-table invariant. -/
theorem orphan_note_discarded_witness :
    processNoteRow (initParserState []) "Xyz 1:1" "text" "" [] = initParserState [] ∧
    NotesNonEmpty (processNotesLine (initParserState []) "Xyz 1:1\ttext\tcat") :=
  ⟨orphan_note_discarded.1 _ "Xyz 1:1" "text" "" [] (by decide),
   orphan_note_discarded.2.1 _ _ (fun p hp => absurd hp (List.not_mem_nil p))⟩

theorem book_name_to_abbrev_isBook (bn : List Char) (ab : String)
    (h : book_name_to_abbrev bn = some ab) : ∃ full, (ab, full) ∈ BIBLE_BOOKS := by
  simp only [book_name_to_abbrev] at h
  cases hv : bookVariations.find?
      (fun p => p.1 == String.mk (pyTitle (pyStrip bn))) with
  | some p =>
    rw [hv] at h
    simp only [Option.some.injEq] at h
    subst h
    have hval : ∀ q ∈ bookVariations, BIBLE_BOOKS.any (fun b => b.1 == q.2) = true := by
      decide
    obtain ⟨b, hb, hbe⟩ := List.any_eq_true.mp
      (hval p (List.mem_of_find?_eq_some hv))
    refine ⟨b.2, ?_⟩
    have : b.1 = p.2 := by simpa using hbe
    rw [← this]
    simpa using hb
  | none =>
    rw [hv] at h
    cases h2 : BIBLE_BOOKS.find?
        (fun p => lowerList p.2.toList == lowerList (String.mk (pyTitle (pyStrip bn))).toList) with
    | some p =>
      rw [h2] at h
      simp only [Option.some.injEq] at h
      subst h
      refine ⟨p.2, ?_⟩
      simpa using List.mem_of_find?_eq_some h2
    | none =>
      rw [h2] at h
      cases h3 : BIBLE_BOOKS.find?
          (fun p => isSubstr (lowerList (String.mk (pyTitle (pyStrip bn))).toList)
            (lowerList p.2.toList)) with
      | some p =>
        rw [h3] at h
        simp only [Option.some.injEq] at h
        subst h
        refine ⟨p.2, ?_⟩
        simpa using List.mem_of_find?_eq_some h3
      | none =>
        rw [h3] at h
        exact absurd h (by simp)

theorem mem_parseVerseRefList_shape (cs : List Char) (vid : String)
    (h : vid ∈ parseVerseRefList cs) :
    ∃ ab ch v, (∃ full, (ab, full) ∈ BIBLE_BOOKS) ∧ vid = mkVerseId ab ch v := by
  unfold parseVerseRefList at h
  rw [List.mem_flatMap] at h
  obtain ⟨part, hpart, hv⟩ := h
  by_cases hnil : pyStrip part = []
  · simp [hnil] at hv
  · simp only [if_neg hnil] at hv
    cases hm : matchFragment (pyStrip part) with
    | none => simp [fragmentVerseIds, hm] at hv
    | some t =>
      obtain ⟨book, ch, sv, ev⟩ := t
      cases hb : book_name_to_abbrev book with
      | none => simp [fragmentVerseIds, hm, hb] at hv
      | some ab =>
        simp only [fragmentVerseIds, hm, hb, List.mem_map] at hv
        obtain ⟨v, hv1, hv2⟩ := hv
        exact ⟨ab, ch, v, book_name_to_abbrev_isBook book ab hb, hv2.symm⟩

/-- C4: every edge emitted by the Cross-Reference Extractor has
confidence exactly 0.8, ref_type exactly explanation, the extracting
note's id as source and a verse id (a registry abbreviation joined with
chapter and verse) as target: this path can produce neither
verse-to-verse nor note-to-note edges. -/
theorem cross_ref_edge_shape :
    ∀ (note_id note_text : String),
      ∀ e ∈ extract_cross_refs_from_note note_id note_text,
        e.confidence = 4 / 5 ∧ e.ref_type = "explanation" ∧
        e.source_id = note_id ∧
        ∃ ab ch v, (∃ full, (ab, full) ∈ BIBLE_BOOKS) ∧
          e.target_id = mkVerseId ab ch v := by
  intro nid text e he
  unfold extract_cross_refs_from_note at he
  rw [List.mem_flatMap] at he
  obtain ⟨g, hg, he2⟩ := he
  rw [List.mem_map] at he2
  obtain ⟨vid, hvid, he3⟩ := he2
  subst he3
  exact ⟨rfl, rfl, rfl, mem_parseVerseRefList_shape g vid hvid⟩

/-- Witness for C4: the single edge extracted from See John 1:1. -/
theorem cross_ref_edge_shape_witness :
    sampleEdge.confidence = 4 / 5 ∧ sampleEdge.ref_type = "explanation" ∧
    sampleEdge.source_id = "N0001" ∧
    ∃ ab ch v, (∃ full, (ab, full) ∈ BIBLE_BOOKS) ∧
      sampleEdge.target_id = mkVerseId ab ch v :=
  cross_ref_edge_shape "N0001" "See John 1:1" sampleEdge (by
    have h : extract_cross_refs_from_note "N0001" "See John 1:1" = [sampleEdge] := rfl
    rw [h]
    exact List.mem_singleton.mpr rfl)

theorem pushVerse_spec (st : List (List String) × List String) (v : String)
    (h : dayBound st) :
    dayBound (pushVerse st v) ∧ stSum (pushVerse st v) = stSum st + 1 := by
  obtain ⟨h1, h2⟩ := h
  unfold pushVerse
  by_cases hl : st.2.length ≥ 10
  · rw [if_pos hl]
    refine ⟨⟨?_, by simp⟩, ?_⟩
    · intro d hd
      rcases List.mem_append.mp hd with hx | hx
      · exact h1 d hx
      · rw [List.mem_singleton] at hx
        subst hx
        exact h2
    · simp only [stSum, List.map_append, List.sum_append]
      simp
  · rw [if_neg hl]
    refine ⟨⟨h1, ?_⟩, ?_⟩
    · simp only [List.length_append, List.length_singleton]
      omega
    · simp only [stSum, List.length_append, List.length_singleton]
      omega

theorem foldl_pushVerse_spec (vs : List String)
    (st : List (List String) × List String) (h : dayBound st) :
    dayBound (vs.foldl pushVerse st) ∧
    stSum (vs.foldl pushVerse st) = stSum st + vs.length := by
  induction vs generalizing st with
  | nil => simpa using h
  | cons a t ih =>
    obtain ⟨hb, hs⟩ := pushVerse_spec st a h
    obtain ⟨hb2, hs2⟩ := ih _ hb
    refine ⟨hb2, ?_⟩
    rw [List.foldl_cons, hs2, hs, List.length_cons]
    omega

theorem packState_spec (groups : List (String × List String)) :
    dayBound (packState groups) ∧
    stSum (packState groups) =
      (groups.map (fun p => min 20 p.2.length)).sum := by
  have key : ∀ (gs : List (String × List String)) st, dayBound st →
      dayBound (gs.foldl (fun st p => (p.2.take 20).foldl pushVerse st) st) ∧
      stSum (gs.foldl (fun st p => (p.2.take 20).foldl pushVerse st) st) =
        stSum st + (gs.map (fun p => min 20 p.2.length)).sum := by
    intro gs
    induction gs with
    | nil => intro st h; simpa using h
    | cons g t ih =>
      intro st h
      obtain ⟨hb, hs⟩ := foldl_pushVerse_spec (g.2.take 20) st h
      obtain ⟨hb2, hs2⟩ := ih _ hb
      refine ⟨hb2, ?_⟩
      rw [List.foldl_cons, hs2, hs, List.length_take, List.map_cons, List.sum_cons]
      omega
  have h0 : dayBound (([], []) : List (List String) × List String) :=
    ⟨fun d hd => absurd hd (List.not_mem_nil d), by simp⟩
  obtain ⟨hb, hs⟩ := key groups ([], []) h0
  refine ⟨hb, ?_⟩
  unfold packState
  rw [hs]
  simp [stSum]

theorem packDays_spec (groups : List (String × List String)) :
    (∀ d ∈ packDays groups, d.length ≤ 10) ∧
    ((packDays groups).map List.length).sum =
      (groups.map (fun p => min 20 p.2.length)).sum := by
  obtain ⟨⟨hb, hc⟩, hs⟩ := packState_spec groups
  simp only [packDays]
  by_cases h : (packState groups).2 = []
  · rw [if_pos h]
    refine ⟨hb, ?_⟩
    rw [← hs]
    simp [stSum, h]
  · rw [if_neg h]
    constructor
    · intro d hd
      rcases List.mem_append.mp hd with hx | hx
      · exact hb d hx
      · rw [List.mem_singleton] at hx
        subst hx
        exact hc
    · rw [← hs]
      simp [stSum, List.sum_append]

theorem mem_generatePlansAux (ti : List ThematicIndex)
    (verses : List (String × BibleVerse)) :
    ∀ (names : List String) (counter : Nat) (plan : ReadingPlan),
      plan ∈ generatePlansAux ti verses counter names →
      ∃ entry ∈ ti, plan.theme = entry.name ∧
        plan.days = packDays (groupVersesByBook entry.verse_ids verses) := by
  intro names
  induction names with
  | nil => intro c plan h; simp [generatePlansAux] at h
  | cons nm rest ih =>
    intro c plan h
    cases hf : ti.find? (fun idx => idx.name == nm) with
    | none =>
      simp only [generatePlansAux, hf] at h
      exact ih _ _ h
    | some entry =>
      by_cases h10 : entry.total_references > 10
      · by_cases hd : packDays (groupVersesByBook entry.verse_ids verses) = []
        · simp only [generatePlansAux, hf, h10, if_true, hd, if_pos] at h
          exact ih _ _ h
        · simp only [generatePlansAux, hf, h10, if_true, if_neg hd,
            List.mem_cons] at h
          rcases h with h | h
          · subst h
            have hnm : entry.name = nm := by
              have := List.find?_some hf
              simpa using this
            exact ⟨entry, List.mem_of_find?_eq_some hf, by simp [mkReadingPlan, hnm], rfl⟩
          · exact ih _ _ h
      · simp only [generatePlansAux, hf, h10, if_false] at h
        exact ih _ _ h

/-- C5: every plan emitted by the Reading-Plan Generator chunks its days
at no more than 10 verse ids, and the total verse-id count across its
days equals the book-capped count of its theme entry's verses: the sum
over the by-book (store-grouped) buckets of min 20 bucket-size. -/
theorem reading_plan_chunk_bounds :
    ∀ (ti : List ThematicIndex) (verses : List (String × BibleVerse)),
      ∀ plan ∈ generate_reading_plans ti verses,
        (∀ day ∈ plan.days, day.length ≤ 10) ∧
        ∃ entry ∈ ti, plan.theme = entry.name ∧
          (plan.days.map List.length).sum =
            ((groupVersesByBook entry.verse_ids verses).map
              (fun p => min 20 p.2.length)).sum := by
  intro ti verses plan h
  obtain ⟨entry, hent, hth, hdays⟩ :=
    mem_generatePlansAux ti verses major_themes 1 plan h
  obtain ⟨hb, hs⟩ := packDays_spec (groupVersesByBook entry.verse_ids verses)
  rw [hdays]
  exact ⟨hb, entry, hent, hth, hs⟩

/-- Witness for C5: the plan generated for a Salvation theme entry with
12 references over a one-verse store. -/
theorem reading_plan_chunk_bounds_witness :
    (∀ day ∈ salvPlan.days, day.length ≤ 10) ∧
    ∃ entry ∈ [salvEntry], salvPlan.theme = entry.name ∧
      (salvPlan.days.map List.length).sum =
        ((groupVersesByBook entry.verse_ids salvStore).map
          (fun p => min 20 p.2.length)).sum :=
  reading_plan_chunk_bounds [salvEntry] salvStore salvPlan (by decide)

theorem length_modifyAt (ts : List ThematicIndex) (j : Nat)
    (f : ThematicIndex → ThematicIndex) :
    (modifyAt ts j f).length = ts.length := by
  unfold modifyAt
  cases h : ts.get? j <;> simp

theorem getElem_modifyAt (ts : List ThematicIndex) (j : Nat)
    (f : ThematicIndex → ThematicIndex) (i : Nat) (hi : i < ts.length)
    (hi2 : i < (modifyAt ts j f).length) :
    (modifyAt ts j f)[i] = if j = i then f ts[i] else ts[i] := by
  rcases h : ts.get? j with _ | t
  · have hj : ts.length ≤ j := by
      rw [List.get?_eq_getElem?] at h
      by_contra hlt
      push_neg at hlt
      rw [List.getElem?_eq_getElem hlt] at h
      cases h
    have hne : ¬(j = i) := by omega
    simp only [modifyAt, h, if_neg hne]
  · obtain ⟨hj, heq⟩ := List.getElem?_eq_some_iff.mp
      (by rw [← List.get?_eq_getElem?]; exact h)
    simp only [modifyAt, h]
    rw [List.getElem_set]
    by_cases hji : j = i
    · subst hji
      rw [if_pos rfl, if_pos rfl, heq]
    · rw [if_neg hji, if_neg hji]

theorem linkPair_oob (ts : List ThematicIndex) (p j : Nat)
    (h : ¬(p < ts.length ∧ j < ts.length)) : linkPair ts p j = ts := by
  unfold linkPair
  rcases hp : ts.get? p with _ | parent
  · simp [hp]
  · rcases hj : ts.get? j with _ | child
    · simp [hp, hj]
    · exfalso
      apply h
      constructor
      · rw [List.get?_eq_getElem?] at hp
        exact (List.getElem?_eq_some_iff.mp hp).1
      · rw [List.get?_eq_getElem?] at hj
        exact (List.getElem?_eq_some_iff.mp hj).1

theorem length_linkPair (ts : List ThematicIndex) (p j : Nat) :
    (linkPair ts p j).length = ts.length := by
  unfold linkPair
  rcases hp : ts.get? p with _ | parent
  · simp [hp]
  · rcases hj : ts.get? j with _ | child
    · simp [hp, hj]
    · simp [hp, hj, length_modifyAt]

theorem linkPair_fields (ts : List ThematicIndex) (p j : Nat)
    (hplt : p < ts.length) (hjlt : j < ts.length)
    (i : Nat) (hi : i < ts.length) (hi2 : i < (linkPair ts p j).length) :
    (linkPair ts p j)[i].theme_id = ts[i].theme_id ∧
    (linkPair ts p j)[i].name = ts[i].name ∧
    (linkPair ts p j)[i].note_ids = ts[i].note_ids ∧
    (linkPair ts p j)[i].verse_ids = ts[i].verse_ids ∧
    (linkPair ts p j)[i].confidence_score = ts[i].confidence_score ∧
    (linkPair ts p j)[i].sub_themes =
      ts[i].sub_themes ++ (if p = i then [ts[j].theme_id] else []) ∧
    (linkPair ts p j)[i].parent_themes =
      ts[i].parent_themes ++ (if j = i then [ts[p].theme_id] else []) := by
  have hp : ts.get? p = some ts[p] := by
    rw [List.get?_eq_getElem?, List.getElem?_eq_getElem hplt]
  have hj : ts.get? j = some ts[j] := by
    rw [List.get?_eq_getElem?, List.getElem?_eq_getElem hjlt]
  simp only [linkPair, hp, hj]
  rw [getElem_modifyAt (modifyAt ts j (fun t =>
        { t with parent_themes := t.parent_themes ++ [ts[p].theme_id] })) p
      (fun t => { t with sub_themes := t.sub_themes ++ [ts[j].theme_id] }) i
      (by rw [length_modifyAt]; exact hi)
      (by rw [length_modifyAt, length_modifyAt]; exact hi),
    getElem_modifyAt ts j (fun t =>
        { t with parent_themes := t.parent_themes ++ [ts[p].theme_id] }) i hi
      (by rw [length_modifyAt]; exact hi)]
  by_cases hpi : p = i <;> by_cases hji : j = i <;> simp [hpi, hji]

theorem linkPair_symInv (ts : List ThematicIndex) (p j : Nat)
    (hnd : (ts.map ThematicIndex.theme_id).Nodup) (h : SymInv ts) :
    SymInv (linkPair ts p j) := by
  by_cases hb : p < ts.length ∧ j < ts.length
  case neg =>
    rw [linkPair_oob ts p j hb]
    exact h
  obtain ⟨hplt, hjlt⟩ := hb
  have hlen := length_linkPair ts p j
  have idinj : ∀ a b (ha : a < ts.length) (hb2 : b < ts.length),
      ts[a].theme_id = ts[b].theme_id → a = b := by
    intro a b ha hb2 heq
    have hma : a < (ts.map ThematicIndex.theme_id).length := by simpa using ha
    have hmb : b < (ts.map ThematicIndex.theme_id).length := by simpa using hb2
    have h1 : (ts.map ThematicIndex.theme_id)[a] =
        (ts.map ThematicIndex.theme_id)[b] := by
      rw [List.getElem_map, List.getElem_map]
      exact heq
    exact (List.Nodup.getElem_inj_iff hnd).mp h1
  intro i k hi hk
  have hi' : i < ts.length := by omega
  have hk' : k < ts.length := by omega
  obtain ⟨idi, -, -, -, -, subi, -⟩ := linkPair_fields ts p j hplt hjlt i hi' hi
  obtain ⟨idk, -, -, -, -, -, park⟩ := linkPair_fields ts p j hplt hjlt k hk' hk
  rw [idi, idk, subi, park]
  by_cases hpi : p = i <;> by_cases hjk : j = k
  · subst hpi
    subst hjk
    rw [if_pos rfl, if_pos rfl]
    exact iff_of_true
      (List.mem_append.mpr (Or.inr (List.mem_singleton.mpr rfl)))
      (List.mem_append.mpr (Or.inr (List.mem_singleton.mpr rfl)))
  · rw [if_pos hpi, if_neg hjk, List.append_nil, List.mem_append,
      List.mem_singleton]
    have hne : ¬ts[k].theme_id = ts[j].theme_id := fun e =>
      hjk (idinj k j hk' hjlt e).symm
    rw [or_iff_left hne]
    exact h i k hi' hk'
  · rw [if_neg hpi, if_pos hjk, List.append_nil, List.mem_append,
      List.mem_singleton]
    have hne : ¬ts[i].theme_id = ts[p].theme_id := fun e =>
      hpi (idinj i p hi' hplt e).symm
    rw [or_iff_left hne]
    exact h i k hi' hk'
  · rw [if_neg hpi, if_neg hjk, List.append_nil, List.append_nil]
    exact h i k hi' hk'

theorem foldl_preserves {β : Type} (P : List ThematicIndex → Prop)
    (f : List ThematicIndex → β → List ThematicIndex)
    (hf : ∀ ts b, P ts → P (f ts b)) :
    ∀ (l : List β) (ts : List ThematicIndex), P ts → P (l.foldl f ts) := by
  intro l
  induction l with
  | nil => intro ts h; exact h
  | cons a t ih =>
    intro ts h
    rw [List.foldl_cons]
    exact ih _ (hf ts a h)

theorem linkChildren_pres (P : List ThematicIndex → Prop)
    (hlp : ∀ ts p j, P ts → P (linkPair ts p j)) (p : Nat) (c : String)
    (ts : List ThematicIndex) (h : P ts) : P (linkChildren ts p c) := by
  unfold linkChildren
  apply foldl_preserves P _ ?_ (List.range ts.length) ts h
  intro ts2 j h2
  rcases hj : ts2.get? j with _ | rec
  · simpa [hj] using h2
  · by_cases hn : rec.name = c
    · simpa [hj, hn] using hlp ts2 p j h2
    · simpa [hj, hn] using h2

theorem relationships_pres (P : List ThematicIndex → Prop)
    (hlp : ∀ ts p j, P ts → P (linkPair ts p j))
    (ts : List ThematicIndex) (h : P ts) :
    P (build_theme_relationships ts) := by
  unfold build_theme_relationships
  apply foldl_preserves P _ ?_ theme_hierarchies ts h
  intro ts2 rule h2
  unfold applyHierarchyRule
  cases hf : ts2.findIdx? (fun t => t.name == rule.1) with
  | none => simpa [hf] using h2
  | some p =>
    simp only [hf]
    apply foldl_preserves P _ ?_ rule.2 ts2 h2
    intro ts3 c h3
    exact linkChildren_pres P hlp p c ts3 h3

theorem linkPair_ids (ts : List ThematicIndex) (p j : Nat) :
    (linkPair ts p j).map ThematicIndex.theme_id =
      ts.map ThematicIndex.theme_id := by
  by_cases hb : p < ts.length ∧ j < ts.length
  · apply List.ext_getElem
    · simp [length_linkPair]
    · intro n h1 h2
      rw [List.getElem_map, List.getElem_map]
      have hn : n < ts.length := by simpa using h2
      have hn2 : n < (linkPair ts p j).length := by
        rw [length_linkPair]; exact hn
      exact (linkPair_fields ts p j hb.1 hb.2 n hn hn2).1
  · rw [linkPair_oob ts p j hb]

theorem linkPair_sym_nodup (ts : List ThematicIndex) (p j : Nat)
    (h : (ts.map ThematicIndex.theme_id).Nodup ∧ SymInv ts) :
    ((linkPair ts p j).map ThematicIndex.theme_id).Nodup ∧
    SymInv (linkPair ts p j) := by
  refine ⟨?_, linkPair_symInv ts p j h.1 h.2⟩
  rw [linkPair_ids]
  exact h.1

/-- C7: after the hierarchy pass over any index whose theme ids are
pairwise distinct and whose link lists start empty (the state pass 2
materializes), the parent and child links are symmetric: B's id is among
A's sub_themes exactly when A's id is among B's parent_themes. -/
theorem theme_hierarchy_symmetric :
    ∀ ts : List ThematicIndex,
      (ts.map ThematicIndex.theme_id).Nodup →
      (∀ t ∈ ts, t.sub_themes = [] ∧ t.parent_themes = []) →
      ∀ A ∈ build_theme_relationships ts, ∀ B ∈ build_theme_relationships ts,
        (B.theme_id ∈ A.sub_themes ↔ A.theme_id ∈ B.parent_themes) := by
  intro ts hnd hemp A hA B hB
  have base : SymInv ts := by
    intro i k hi hk
    rw [(hemp ts[i] (List.getElem_mem hi)).1, (hemp ts[k] (List.getElem_mem hk)).2]
    simp
  obtain ⟨-, hsym⟩ := relationships_pres
    (fun u => (u.map ThematicIndex.theme_id).Nodup ∧ SymInv u)
    linkPair_sym_nodup ts ⟨hnd, base⟩
  obtain ⟨i, hi, hAi⟩ := List.mem_iff_getElem.mp hA
  obtain ⟨k, hk, hBk⟩ := List.mem_iff_getElem.mp hB
  rw [← hAi, ← hBk]
  exact hsym i k hi hk

/-- Witness for C7 on a two-theme index linked by the Dispensation rule. -/
theorem theme_hierarchy_symmetric_witness :
    (hierChildOut.theme_id ∈ hierParentOut.sub_themes ↔
      hierParentOut.theme_id ∈ hierChildOut.parent_themes) :=
  theme_hierarchy_symmetric hierPairInput (by decide) (by decide)
    hierParentOut (by
      have h : build_theme_relationships hierPairInput =
          [hierParentOut, hierChildOut] := rfl
      rw [h]
      exact List.mem_cons_self _ _)
    hierChildOut (by
      have h : build_theme_relationships hierPairInput =
          [hierParentOut, hierChildOut] := rfl
      rw [h]
      exact List.mem_cons_of_mem _ (List.mem_cons_self _ _))

theorem coreEq_refl (ts : List ThematicIndex) : CoreEq ts ts :=
  ⟨rfl, fun _ _ _ => ⟨rfl, rfl, rfl, rfl, rfl⟩⟩

theorem coreEq_trans {a b c : List ThematicIndex}
    (h1 : CoreEq a b) (h2 : CoreEq b c) : CoreEq a c := by
  obtain ⟨hl1, hf1⟩ := h1
  obtain ⟨hl2, hf2⟩ := h2
  refine ⟨by omega, ?_⟩
  intro i hi hi2
  have hib : i < b.length := by omega
  obtain ⟨e1, e2, e3, e4, e5⟩ := hf1 i hi hib
  obtain ⟨f1, f2, f3, f4, f5⟩ := hf2 i hib hi2
  exact ⟨f1.trans e1, f2.trans e2, f3.trans e3, f4.trans e4, f5.trans e5⟩

theorem linkPair_coreEq (ts : List ThematicIndex) (p j : Nat) :
    CoreEq ts (linkPair ts p j) := by
  by_cases hb : p < ts.length ∧ j < ts.length
  · refine ⟨length_linkPair ts p j, ?_⟩
    intro i hi hi2
    obtain ⟨e1, e2, e3, e4, e5, -, -⟩ := linkPair_fields ts p j hb.1 hb.2 i hi hi2
    exact ⟨e1, e2, e3, e4, e5⟩
  · rw [linkPair_oob ts p j hb]
    exact coreEq_refl ts

theorem relationships_coreEq (ts : List ThematicIndex) :
    CoreEq ts (build_theme_relationships ts) :=
  relationships_pres (CoreEq ts)
    (fun u p j hu => coreEq_trans hu (linkPair_coreEq u p j)) ts (coreEq_refl ts)

theorem mem_materializeThemes_conf (t2v : List (String × List String)) :
    ∀ (l : List (String × List String)) (counter : Nat) (t : ThematicIndex),
      t ∈ materializeThemes t2v counter l →
      t.confidence_score =
        min 1 (((t.note_ids.length + t.verse_ids.length : Nat) : ℚ) / 100) := by
  intro l
  induction l with
  | nil => intro c t h; simp [materializeThemes] at h
  | cons q rest ih =>
    intro c t h
    obtain ⟨nm, nids⟩ := q
    rcases List.mem_cons.mp h with h1 | h2
    · subst h1
      rfl
    · exact ih _ _ h2

theorem mem_network_conf (notes : List (String × ScofieldNote))
    (verses : List (String × BibleVerse)) (t : ThematicIndex)
    (h : t ∈ build_thematic_network notes verses) :
    t.confidence_score =
      min 1 (((t.note_ids.length + t.verse_ids.length : Nat) : ℚ) / 100) := by
  unfold build_thematic_network at h
  obtain ⟨hlen, hfields⟩ :=
    relationships_coreEq (build_thematic_entries notes verses)
  obtain ⟨i, hi, hti⟩ := List.mem_iff_getElem.mp h
  have hi0 : i < (build_thematic_entries notes verses).length := by omega
  obtain ⟨-, -, hnotes, hverses, hconf⟩ := hfields i hi0 hi
  have hmem : (build_thematic_entries notes verses)[i] ∈
      build_thematic_entries notes verses := List.getElem_mem hi0
  have hent := mem_materializeThemes_conf (buildThemeToVerses notes verses)
    (buildThemeToNotes notes) 1 _ hmem
  rw [← hti, hconf, hnotes, hverses]
  exact hent

/-- C6: every theme materialized by the Thematic Indexer has
confidence_score equal to min(1, (noteCount + verseCount) / 100); hence
the score never exceeds 1 and is monotonically non-decreasing in the
total reference count across the materialized themes. -/
theorem theme_confidence_formula :
    ∀ (notes : List (String × ScofieldNote)) (verses : List (String × BibleVerse)),
      ∀ t ∈ build_thematic_network notes verses,
        t.confidence_score =
          min 1 (((t.note_ids.length + t.verse_ids.length : Nat) : ℚ) / 100) ∧
        t.confidence_score ≤ 1 ∧
        ∀ u ∈ build_thematic_network notes verses,
          t.total_references ≤ u.total_references →
          t.confidence_score ≤ u.confidence_score := by
  intro notes verses t ht
  have hf := mem_network_conf notes verses t ht
  refine ⟨hf, ?_, ?_⟩
  · rw [hf]
    exact min_le_left _ _
  · intro u hu hle
    have hg := mem_network_conf notes verses u hu
    rw [hf, hg]
    apply min_le_min le_rfl
    have hle2 : t.note_ids.length + t.verse_ids.length ≤
        u.note_ids.length + u.verse_ids.length := hle
    have hc : ((t.note_ids.length + t.verse_ids.length : Nat) : ℚ) ≤
        ((u.note_ids.length + u.verse_ids.length : Nat) : ℚ) :=
      Nat.cast_le.mpr hle2
    exact (div_le_div_iff_of_pos_right (by norm_num)).mpr hc

/-- Witness for C6: the single Grace theme built from one tagged note. -/
theorem theme_confidence_formula_witness :
    graceEntryOut.confidence_score =
      min 1 (((graceEntryOut.note_ids.length +
        graceEntryOut.verse_ids.length : Nat) : ℚ) / 100) ∧
    graceEntryOut.confidence_score ≤ 1 ∧
    ∀ u ∈ build_thematic_network graceNotes [],
      graceEntryOut.total_references ≤ u.total_references →
      graceEntryOut.confidence_score ≤ u.confidence_score :=
  theme_confidence_formula graceNotes [] graceEntryOut (by
    have h : build_thematic_network graceNotes [] = [graceEntryOut] := rfl
    rw [h]
    exact List.mem_singleton.mpr rfl)
